import Mathlib

/-
Formal model of the Shakespeare match-count service and its load generator.

The development shallowly embeds the Go sources:
  * server (step6/src/server/main.go): readFiles — the fan-out retrieval of
    bucket objects with a result channel, and GetMatchCount — the line
    counting loop over the retrieved corpus;
  * load generator (step0/src/loadgen/main.go): the ticker loop in main,
    the bounded-concurrency batch runner run, and the HTTP query runQuery.

Nondeterministic scheduling (goroutine interleaving, channel arrival order)
is made explicit: readFiles takes the completion order of the fetch
goroutines as a parameter, and run is modelled as a small-step transition
system over the states of its worker goroutines, its semaphore channel
concCh and its result channel respErrCh.
-/

/- ===================== Match-Counting Engine ===================== -/

/-- Result of the compiled matcher applied per line; a matcher abstracts
the Go regexp object obtained from regexp.MustCompile, and a compile
function abstracts the Go regexp compiler: none models an unparseable
pattern (where MustCompile panics). -/
def Matcher : Type := String → Bool

/-- Outcome of the GetMatchCount handler: a normal response, a returned
error (paired with the zero-valued response struct it is returned with),
or a runtime panic (regexp.MustCompile on an invalid pattern). -/
inductive GMCResult where
  | ok (count : Nat)
  | err (count : Nat) (msg : String)
  | crashed
deriving DecidableEq

/-- Splitting of a document into lines on the newline character, the
semantics of strings.Split(text, "\n"): the empty document yields one
empty line, and a trailing newline yields a trailing empty line. -/
def splitLinesAux : List Char → List Char → List String
  | [], cur => [String.mk cur.reverse]
  | c :: rest, cur =>
    if c = '\n' then String.mk cur.reverse :: splitLinesAux rest []
    else splitLinesAux rest (c :: cur)

/-- Line splitting of strings.Split(text, "\n") on a whole document. -/
def splitLines (text : String) : List String :=
  splitLinesAux text.data []

/-- Lowercasing of strings.ToLower, character by character. -/
def strToLower (s : String) : String :=
  String.mk (s.data.map Char.toLower)

/-- Inner loop of GetMatchCount over the lines of one document: Go
iterates strings.Split(text, "\n"), lowercases the line, tests the
matcher, and increments resp.MatchCount on a match. -/
def countLines (m : Matcher) (text : String) (acc : Nat) : Nat :=
  (splitLines text).foldl
    (fun a line => if m (strToLower line) then a + 1 else a) acc

/-- Outer loop of GetMatchCount over all retrieved documents. -/
def countLoop (m : Matcher) (texts : List String) : Nat :=
  texts.foldl (fun acc text => countLines m text acc) 0

/-- Per-document matching-line count, stated as a filter length (the
specification-side reformulation of the counting loop). -/
def countDoc (m : Matcher) (text : String) : Nat :=
  ((splitLines text).filter (fun line => m (strToLower line))).length

/-- Specification-side total: the sum over documents of their
matching-line counts. -/
def countSpec (m : Matcher) (texts : List String) : Nat :=
  (texts.map (countDoc m)).sum

/-- GetMatchCount: reads the corpus (outcome passed in as the pair that
readFiles produced), returns the readFiles error if any, then lowercases
the query and compiles it with MustCompile — which panics (crashed) when
compilation fails — and finally runs the counting loop. -/
def getMatchCount (compile : String → Option Matcher)
    (readResult : List String × Option String) (q : String) : GMCResult :=
  match readResult.2 with
  | some e => GMCResult.err 0 ("fails to read files: " ++ e)
  | none =>
    match compile (strToLower q) with
    | none => GMCResult.crashed
    | some m => GMCResult.ok (countLoop m readResult.1)

/-- Test whether the pattern characters match at the very head of the
haystack characters. -/
def leadsWith : List Char → List Char → Bool
  | _, [] => true
  | [], _ :: _ => false
  | h :: hs, p :: ps => h == p && leadsWith hs ps

/-- Unanchored occurrence of the pattern characters anywhere in the
haystack characters. -/
def occursIn : List Char → List Char → Bool
  | [], pat => pat.isEmpty
  | h :: rest, pat => leadsWith (h :: rest) pat || occursIn rest pat

/-- Substring containment: the matcher semantics of a literal
(metacharacter-free) regexp pattern. -/
def strContains (s pat : String) : Bool :=
  occursIn s.data pat.data

/-- Compile function realizing literal-pattern regexp semantics: every
pattern compiles, and matching is unanchored substring search. -/
def subCompile : String → Option Matcher :=
  fun pat => some (fun line => strContains line pat)

/-- Compile function modelling a regexp compiler on inputs it rejects. -/
def badCompile : String → Option Matcher := fun _ => none

/-- Predicate picking out the outcomes that report an error value to the
gRPC caller (as opposed to a normal reply or a panic). -/
def isCallerError : GMCResult → Bool
  | GMCResult.err _ _ => true
  | _ => false

/- ===================== Fan-Out Retrieval Engine (readFiles) ===================== -/

/-- One message on the resps channel of readFiles: the fetched string and
the error of the fetch goroutine (the resp struct in the source). -/
structure FetchResp where
  s : String
  err : Option String

/-- Outcome of the bucket-listing loop: either the iterator failed, or it
produced the attrs.Name sequence. -/
inductive ListingResult where
  | failure (e : String)
  | success (names : List String)

/-- Paths collected from the listing: names with the empty ones dropped,
mirroring the attrs.Name filter in the listing loop. -/
def pathsOf (names : List String) : List String :=
  names.filter (fun nm => nm != "")

/-- One iteration of the fan-in loop of readFiles: append the received
string to ret (ret gets the i-th arrival at index i) and overwrite err
whenever the received error is non-nil. -/
def collectStep (acc : List String × Option String) (r : FetchResp) :
    List String × Option String :=
  (acc.1 ++ [r.s], match r.err with | some e => some e | none => acc.2)

/-- The fan-in loop of readFiles, folded over the channel arrivals. -/
def collectResps (resps : List FetchResp) : List String × Option String :=
  resps.foldl collectStep ([], none)

/-- readFiles: on a listing failure it returns an empty slice and the
listing error; otherwise it launches one fetch goroutine per path and
collects exactly len(paths) responses in channel-arrival order. The
arrival order (a permutation of the paths) is an explicit parameter, and
fetch gives the response each goroutine sends for its path. -/
def readFiles (listing : ListingResult) (fetch : String → FetchResp)
    (arrival : List String) : List String × Option String :=
  match listing with
  | ListingResult.failure e => ([], some ("failed to iterate over files: " ++ e))
  | ListingResult.success _ => collectResps (arrival.map fetch)

/-- Fetch oracle for the two-object scenario in which object b fails. -/
def cxFetch : String → FetchResp :=
  fun p =>
    if p = "b" then { s := "", err := some "storage: read failed" }
    else { s := "content-of-a", err := none }

/- ===================== Load generator: runQuery ===================== -/

/-- Environment of one runQuery call: the outcome of http.Get, of
io.ReadAll on the body, the body bytes, and the JSON decoding of the body
into the match_count field. -/
structure HttpEnv where
  getErr : Option String
  readErr : Option String
  body : String
  decode : String → Except String Int

/-- runQuery: returns -1 with an error if the request, the body read or
the JSON decode fails; otherwise the decoded match_count with no error. -/
def runQuery (env : HttpEnv) : Int × Option String :=
  match env.getErr with
  | some e => (-1, some ("error sending request: " ++ e))
  | none =>
    match env.readErr with
    | some e => (-1, some ("error reading response body: " ++ e))
    | none =>
      match env.decode env.body with
      | Except.error e => (-1, some e)
      | Except.ok m => (m, none)

/- ===================== Load generator: ticker loop ===================== -/

/-- The ticker loop of the load generator main: starting from round
counter i, it invokes run once per tick and breaks when numRounds is
non-zero and the counter exceeds it (the check runs after the call, and
the counter increments after the check). The result is the total number
of run invocations, with none when the fuel runs out first — so a
numRounds of zero loops forever (none for every fuel). -/
def mainLoop (numRounds : Nat) : Nat → Nat → Option Nat
  | _, 0 => none
  | i, fuel + 1 =>
    if numRounds ≠ 0 ∧ numRounds < i then some 1
    else Option.map (fun k => k + 1) (mainLoop numRounds (i + 1) fuel)

/- ===================== Basic lemmas ===================== -/

lemma foldl_count_filter (p : String → Bool) (l : List String) :
    ∀ a : Nat, l.foldl (fun acc line => if p line then acc + 1 else acc) a
      = a + (l.filter p).length := by
  induction l with
  | nil => intro a; simp
  | cons hd tl ih =>
    intro a
    by_cases h : p hd = true
    · simp [List.foldl_cons, List.filter_cons, h, ih]
      omega
    · simp only [Bool.not_eq_true] at h
      simp [List.foldl_cons, List.filter_cons, h, ih]

lemma countLines_eq (m : Matcher) (text : String) (acc : Nat) :
    countLines m text acc = acc + countDoc m text := by
  unfold countLines countDoc
  exact foldl_count_filter (fun line => m (strToLower line)) _ acc

lemma countLoop_foldl (m : Matcher) (texts : List String) :
    ∀ acc : Nat, texts.foldl (fun acc text => countLines m text acc) acc
      = acc + countSpec m texts := by
  induction texts with
  | nil => intro acc; simp [countSpec]
  | cons hd tl ih =>
    intro acc
    rw [List.foldl_cons, ih, countLines_eq]
    simp [countSpec]
    omega

/-- The counting loop computes the sum over documents of the number of
matching lines. -/
lemma countLoop_eq_countSpec (m : Matcher) (texts : List String) :
    countLoop m texts = countSpec m texts := by
  unfold countLoop
  simpa using countLoop_foldl m texts 0

lemma collect_foldl_fst (resps : List FetchResp) :
    ∀ acc : List String × Option String,
      (resps.foldl collectStep acc).1 = acc.1 ++ resps.map (fun r => r.s) := by
  induction resps with
  | nil => intro acc; simp
  | cons hd tl ih =>
    intro acc
    simp [List.foldl_cons, ih, collectStep]

lemma collect_foldl_snd_none (resps : List FetchResp) :
    ∀ acc : List String × Option String,
      ((resps.foldl collectStep acc).2 = none ↔
        (acc.2 = none ∧ ∀ r ∈ resps, r.err = none)) := by
  induction resps with
  | nil => intro acc; simp
  | cons hd tl ih =>
    intro acc
    rw [List.foldl_cons, ih]
    cases hr : hd.err with
    | none =>
      simp only [collectStep, hr]
      constructor
      · rintro ⟨h1, h2⟩
        exact ⟨h1, fun r hrm => by
          rcases List.mem_cons.mp hrm with h | h
          · rw [h]; exact hr
          · exact h2 r h⟩
      · rintro ⟨h1, h2⟩
        exact ⟨h1, fun r hrm => h2 r (List.mem_cons_of_mem _ hrm)⟩
    | some e =>
      simp only [collectStep, hr]
      constructor
      · rintro ⟨h1, h2⟩
        exact absurd h1 (by simp)
      · rintro ⟨h1, h2⟩
        have := h2 hd (List.mem_cons_self _ _)
        rw [this] at hr
        exact absurd hr (by simp)

lemma collectResps_fst (resps : List FetchResp) :
    (collectResps resps).1 = resps.map (fun r => r.s) := by
  unfold collectResps
  simpa using collect_foldl_fst resps ([], none)

lemma collectResps_snd_none (resps : List FetchResp) :
    (collectResps resps).2 = none ↔ ∀ r ∈ resps, r.err = none := by
  unfold collectResps
  simpa using collect_foldl_snd_none resps ([], none)

lemma mainLoop_zero_forever (i fuel : Nat) : mainLoop 0 i fuel = none := by
  induction fuel generalizing i with
  | zero => rfl
  | succ k ih => simp [mainLoop, ih]

lemma mainLoop_pos (R : Nat) (hR : 1 ≤ R) :
    ∀ fuel i : Nat, i ≤ R + 1 → R + 2 - i ≤ fuel →
      mainLoop R i fuel = some (R + 2 - i) := by
  intro fuel
  induction fuel with
  | zero => intro i hi hf; omega
  | succ k ih =>
    intro i hi hf
    by_cases hcond : R < i
    · have hie : i = R + 1 := by omega
      have : (R ≠ 0 ∧ R < i) := ⟨by omega, hcond⟩
      simp [mainLoop, this, hie]
    · have hrec := ih (i + 1) (by omega) (by omega)
      have hnot : ¬ (R ≠ 0 ∧ R < i) := by
        intro hc
        exact hcond hc.2
      have hstep : mainLoop R i (k + 1)
          = if R ≠ 0 ∧ R < i then some 1
            else Option.map (fun j => j + 1) (mainLoop R (i + 1) k) := rfl
      rw [hstep, if_neg hnot, hrec]
      exact congrArg some (show R + 2 - (i + 1) + 1 = R + 2 - i by omega)

/- ===================== Load generator: run ===================== -/

/-- Error type carried on respErrCh. -/
abbrev Err := String

/-- Status of one worker goroutine launched by run: start — not yet past
the semaphore send on concCh; sending — holding a permit, its query
finished, blocked sending the result on the unbuffered respErrCh;
releasing — result delivered, the deferred receive from concCh still
pending; done — permit given back, goroutine exited. -/
inductive WStatus where
  | start
  | sending
  | releasing
  | done
deriving DecidableEq

/-- A worker holds a semaphore slot from the concCh send until the
deferred receive runs. -/
def holdsPermit : WStatus → Bool
  | WStatus.sending => true
  | WStatus.releasing => true
  | _ => false

/-- A worker has reported back once its respErrCh send has completed. -/
def hasReported : WStatus → Bool
  | WStatus.releasing => true
  | WStatus.done => true
  | _ => false

/-- Global state of one run call with n workers: the worker statuses, the
workers whose results the collector loop has received (in channel-arrival
order), and the value run has returned if it has — some none means run
returned nil, some (some e) means run returned the error e. -/
structure RunState (n : Nat) where
  ws : Fin n → WStatus
  received : List (Fin n)
  returned : Option (Option Err)

/-- Number of semaphore slots currently taken, that is, tokens sitting in
the buffered channel concCh. -/
def permits {n : Nat} (s : RunState n) : Nat :=
  (Finset.univ.filter (fun w => holdsPermit (s.ws w) = true)).card

/-- Initial state of a run call: every worker before its semaphore send,
nothing received, run still executing. -/
def initState (n : Nat) : RunState n :=
  { ws := fun _ => WStatus.start, received := [], returned := none }

/-- Effect of a worker completing its semaphore send concCh <- true. -/
def acquireSt {n : Nat} (s : RunState n) (w : Fin n) : RunState n :=
  { s with ws := Function.update s.ws w WStatus.sending }

/-- Effect of the rendezvous on the unbuffered respErrCh: the collector
receives the result of worker w; if that result is an error, run returns
it at once. -/
def deliverSt {n : Nat} (results : Fin n → Option Err) (s : RunState n)
    (w : Fin n) : RunState n :=
  { ws := Function.update s.ws w WStatus.releasing,
    received := s.received ++ [w],
    returned := match results w with
      | some e => some (some e)
      | none => s.returned }

/-- Effect of the deferred receive <-concCh of worker w: its permit goes
back to the pool and the goroutine exits. -/
def releaseSt {n : Nat} (s : RunState n) (w : Fin n) : RunState n :=
  { s with ws := Function.update s.ws w WStatus.done }

/-- Effect of the collector loop finishing all n iterations without
having seen an error: run returns nil. -/
def finishSt {n : Nat} (s : RunState n) : RunState n :=
  { s with returned := some none }

/-- Small-step semantics of run with n workers, a semaphore of capacity
limit, and a fixed oracle results giving the outcome of each worker
query. acquire blocks while the semaphore is full; deliver requires the
collector to still be in its receive loop (run not yet returned, fewer
than n received); release is always enabled for a worker that has
delivered; finish models the collector loop running to completion. -/
inductive RunStep (n limit : Nat) (results : Fin n → Option Err) :
    RunState n → RunState n → Prop where
  | acquire (s : RunState n) (w : Fin n) (h1 : s.ws w = WStatus.start)
      (h2 : permits s < limit) :
      RunStep n limit results s (acquireSt s w)
  | deliver (s : RunState n) (w : Fin n) (h1 : s.ws w = WStatus.sending)
      (h2 : s.returned = none) (h3 : s.received.length < n) :
      RunStep n limit results s (deliverSt results s w)
  | release (s : RunState n) (w : Fin n) (h1 : s.ws w = WStatus.releasing) :
      RunStep n limit results s (releaseSt s w)
  | finish (s : RunState n) (h1 : s.returned = none)
      (h2 : s.received.length = n) :
      RunStep n limit results s (finishSt s)

/-- States a run call can be in. -/
def RunReachable (n limit : Nat) (results : Fin n → Option Err)
    (s : RunState n) : Prop :=
  Relation.ReflTransGen (RunStep n limit results) (initState n) s

/-- A state with no enabled transition: nothing in the run call or its
worker goroutines can ever execute again. -/
def RunStuck (n limit : Nat) (results : Fin n → Option Err)
    (s : RunState n) : Prop :=
  ∀ t : RunState n, ¬ RunStep n limit results s t

lemma permits_update {n : Nat} (f : Fin n → WStatus) (w : Fin n) (v : WStatus) :
    (Finset.univ.filter
        (fun x => holdsPermit (Function.update f w v x) = true)).card
      + (if holdsPermit (f w) = true then 1 else 0)
    = (Finset.univ.filter (fun x => holdsPermit (f x) = true)).card
      + (if holdsPermit v = true then 1 else 0) := by
  rw [Finset.card_filter, Finset.card_filter]
  have hup : ∀ x : Fin n,
      (if holdsPermit (Function.update f w v x) = true then 1 else 0)
        = Function.update (fun y => if holdsPermit (f y) = true then 1 else 0)
            w (if holdsPermit v = true then 1 else 0) x := by
    intro x
    by_cases hx : x = w
    · subst hx
      simp [Function.update_same]
    · simp [Function.update_noteq hx]
  rw [Finset.sum_congr rfl (fun x _ => hup x)]
  rw [Finset.sum_update_of_mem (Finset.mem_univ w)]
  rw [Finset.sum_eq_sum_diff_singleton_add (Finset.mem_univ w)
    (fun y => if holdsPermit (f y) = true then 1 else 0)]
  omega

lemma permits_acquireSt {n : Nat} (s : RunState n) (w : Fin n)
    (h : s.ws w = WStatus.start) :
    permits (acquireSt s w) = permits s + 1 := by
  have hu := permits_update s.ws w WStatus.sending
  rw [h] at hu
  simp only [holdsPermit, if_neg, if_pos] at hu
  simpa [permits, acquireSt] using hu

lemma permits_deliverSt {n : Nat} (results : Fin n → Option Err)
    (s : RunState n) (w : Fin n) (h : s.ws w = WStatus.sending) :
    permits (deliverSt results s w) = permits s := by
  have hu := permits_update s.ws w WStatus.releasing
  rw [h] at hu
  rw [show (if holdsPermit WStatus.sending = true then (1 : Nat) else 0) = 1 from rfl,
      show (if holdsPermit WStatus.releasing = true then (1 : Nat) else 0) = 1 from rfl] at hu
  have hL : permits (deliverSt results s w)
      = (Finset.univ.filter
          (fun x => holdsPermit (Function.update s.ws w WStatus.releasing x) = true)).card := rfl
  have hR : permits s
      = (Finset.univ.filter (fun x => holdsPermit (s.ws x) = true)).card := rfl
  rw [hL, hR]
  omega

lemma permits_releaseSt {n : Nat} (s : RunState n) (w : Fin n)
    (h : s.ws w = WStatus.releasing) :
    permits (releaseSt s w) + 1 = permits s := by
  have hu := permits_update s.ws w WStatus.done
  rw [h] at hu
  simp only [holdsPermit, if_pos, if_neg] at hu
  simpa [permits, releaseSt] using hu

lemma permits_finishSt {n : Nat} (s : RunState n) :
    permits (finishSt s) = permits s := rfl

/-- Collector-return invariant tying the returned value of run to the
sequence of results it received: while still looping, everything received
so far succeeded; a nil return means all n results arrived and succeeded;
an error return means the returned error is the first failing result
received, arriving last in the received list. -/
def ReturnInv {n : Nat} (results : Fin n → Option Err) (s : RunState n) : Prop :=
  (s.returned = none → ∀ w ∈ s.received, results w = none) ∧
  (s.returned = some none →
    s.received.length = n ∧ ∀ w ∈ s.received, results w = none) ∧
  (∀ e, s.returned = some (some e) →
    ∃ l w, s.received = l ++ [w] ∧ (∀ v ∈ l, results v = none) ∧
      results w = some e)

/-- Inductive invariant of the run transition system. -/
structure RunInv (n limit : Nat) (results : Fin n → Option Err)
    (s : RunState n) : Prop where
  permits_le : permits s ≤ limit
  nodup : s.received.Nodup
  mem_iff : ∀ w : Fin n, w ∈ s.received ↔ hasReported (s.ws w) = true
  len_le : s.received.length ≤ n
  ret : ReturnInv results s

lemma runInv_init (n limit : Nat) (results : Fin n → Option Err) :
    RunInv n limit results (initState n) := by
  constructor
  · simp [permits, initState, holdsPermit]
  · exact List.nodup_nil
  · intro w
    simp [initState, hasReported]
  · simp [initState]
  · refine ⟨?_, ?_, ?_⟩ <;> simp [initState]

lemma runInv_step {n limit : Nat} {results : Fin n → Option Err}
    {s t : RunState n} (inv : RunInv n limit results s)
    (st : RunStep n limit results s t) : RunInv n limit results t := by
  cases st with
  | acquire w h1 h2 =>
    constructor
    · rw [permits_acquireSt s w h1]
      omega
    · exact inv.nodup
    · intro v
      by_cases hv : v = w
      · subst hv
        rw [show (acquireSt s v).received = s.received from rfl,
          inv.mem_iff v, h1]
        simp [acquireSt, Function.update_same, hasReported]
      · rw [show (acquireSt s w).received = s.received from rfl,
          show (acquireSt s w).ws v = Function.update s.ws w WStatus.sending v from rfl,
          Function.update_noteq hv]
        exact inv.mem_iff v
    · exact inv.len_le
    · exact inv.ret
  | deliver w h1 h2 h3 =>
    have hw : w ∉ s.received := by
      rw [inv.mem_iff w, h1]
      simp [hasReported]
    have hall : ∀ v ∈ s.received, results v = none := inv.ret.1 h2
    constructor
    · rw [permits_deliverSt results s w h1]
      exact inv.permits_le
    · rw [show (deliverSt results s w).received = s.received ++ [w] from rfl]
      simp [List.nodup_append, inv.nodup, hw]
    · intro v
      rw [show (deliverSt results s w).received = s.received ++ [w] from rfl,
        show (deliverSt results s w).ws v
          = Function.update s.ws w WStatus.releasing v from rfl]
      by_cases hv : v = w
      · subst hv
        simp [Function.update_same, hasReported]
      · rw [Function.update_noteq hv]
        simp [List.mem_append, hv, inv.mem_iff v]
    · rw [show (deliverSt results s w).received = s.received ++ [w] from rfl]
      simp only [List.length_append, List.length_singleton]
      omega
    · refine ⟨?_, ?_, ?_⟩
      · intro hr v hv
        rw [show (deliverSt results s w).received = s.received ++ [w] from rfl]
          at hv
        rw [show (deliverSt results s w).returned
            = (match results w with
               | some e => some (some e)
               | none => s.returned) from rfl] at hr
        cases hres : results w with
        | some e =>
          rw [hres] at hr
          exact absurd hr (by simp)
        | none =>
          rcases List.mem_append.mp hv with hm | hm
          · exact hall v hm
          · rw [List.mem_singleton.mp hm]
            exact hres
      · intro hr
        rw [show (deliverSt results s w).returned
            = (match results w with
               | some e => some (some e)
               | none => s.returned) from rfl] at hr
        cases hres : results w with
        | some e =>
          rw [hres] at hr
          exact absurd hr (by simp)
        | none =>
          rw [hres, h2] at hr
          exact absurd hr (by simp)
      · intro e hr
        rw [show (deliverSt results s w).returned
            = (match results w with
               | some e => some (some e)
               | none => s.returned) from rfl] at hr
        cases hres : results w with
        | some e2 =>
          rw [hres] at hr
          have he : e2 = e := by
            have := Option.some.inj (Option.some.inj hr)
            exact this
          refine ⟨s.received, w, rfl, hall, ?_⟩
          rw [hres, he]
        | none =>
          rw [hres, h2] at hr
          exact absurd hr (by simp)
  | release w h1 =>
    constructor
    · have := permits_releaseSt s w h1
      have hle := inv.permits_le
      omega
    · exact inv.nodup
    · intro v
      by_cases hv : v = w
      · subst hv
        rw [show (releaseSt s v).received = s.received from rfl,
          inv.mem_iff v, h1]
        simp [releaseSt, Function.update_same, hasReported]
      · rw [show (releaseSt s w).received = s.received from rfl,
          show (releaseSt s w).ws v
            = Function.update s.ws w WStatus.done v from rfl,
          Function.update_noteq hv]
        exact inv.mem_iff v
    · exact inv.len_le
    · exact inv.ret
  | finish h1 h2 =>
    constructor
    · exact inv.permits_le
    · exact inv.nodup
    · exact inv.mem_iff
    · exact inv.len_le
    · refine ⟨?_, ?_, ?_⟩
      · intro hr
        exact absurd hr (by simp [finishSt])
      · intro hr
        exact ⟨h2, inv.ret.1 h1⟩
      · intro e hr
        rw [show (finishSt s).returned = some none from rfl] at hr
        exact absurd hr (by simp)

lemma runInv_reachable {n limit : Nat} {results : Fin n → Option Err}
    {s : RunState n} (h : RunReachable n limit results s) :
    RunInv n limit results s := by
  unfold RunReachable at h
  induction h with
  | refl => exact runInv_init n limit results
  | tail hab hbc ih => exact runInv_step ih hbc

lemma received_all {n limit : Nat} {results : Fin n → Option Err}
    {s : RunState n} (inv : RunInv n limit results s)
    (hlen : s.received.length = n) : ∀ w : Fin n, w ∈ s.received := by
  have hcard : s.received.toFinset.card = n := by
    rw [List.toFinset_card_of_nodup inv.nodup, hlen]
  have huniv : s.received.toFinset = Finset.univ := by
    apply (Finset.card_eq_iff_eq_univ _).mp
    rw [hcard, Fintype.card_fin]
  intro w
  have hw : w ∈ s.received.toFinset := by
    rw [huniv]
    exact Finset.mem_univ w
  exact List.mem_toFinset.mp hw

lemma stuck_nil_all_done {n limit : Nat} {results : Fin n → Option Err}
    {s : RunState n} (hre : RunReachable n limit results s)
    (hst : RunStuck n limit results s) (hr : s.returned = some none) :
    ∀ w : Fin n, s.ws w = WStatus.done := by
  have inv := runInv_reachable hre
  have hlen : s.received.length = n := (inv.ret.2.1 hr).1
  have hmem := received_all inv hlen
  intro w
  have hrep : hasReported (s.ws w) = true := (inv.mem_iff w).mp (hmem w)
  cases hws : s.ws w with
  | start =>
    rw [hws] at hrep
    exact absurd hrep (by simp [hasReported])
  | sending =>
    rw [hws] at hrep
    exact absurd hrep (by simp [hasReported])
  | releasing => exact absurd (RunStep.release s w hws) (hst _)
  | done => rfl

lemma permits_eq_zero_of_all_done {n : Nat} {s : RunState n}
    (h : ∀ w : Fin n, s.ws w = WStatus.done) : permits s = 0 := by
  unfold permits
  rw [Finset.card_eq_zero]
  apply Finset.filter_eq_empty_iff.mpr
  intro w _
  rw [h w]
  simp [holdsPermit]

/- Concrete batch with two workers, capacity two, in which worker 0 fails
and worker 1 succeeds: the collector receives the failing result first
and run returns, leaving worker 1 blocked on respErrCh with its permit. -/

/-- Result oracle: worker 0 fails with boom, worker 1 succeeds. -/
def cxResults : Fin 2 → Option Err :=
  fun w => if w = 0 then some "boom" else none

/-- Worker 0 has taken a permit. -/
def runS1 : RunState 2 := acquireSt (initState 2) 0

/-- Both workers have taken permits. -/
def runS2 : RunState 2 := acquireSt runS1 1

/-- The collector has received the failing result of worker 0 and run has
returned the error while worker 1 is still in flight. -/
def runS3 : RunState 2 := deliverSt cxResults runS2 0

/-- Worker 0 has run its deferred release; worker 1 remains blocked on
the unbuffered respErrCh, holding its permit forever. -/
def runSfin : RunState 2 := releaseSt runS3 0

lemma reach_runS3 : RunReachable 2 2 cxResults runS3 := by
  have h1 : RunStep 2 2 cxResults (initState 2) runS1 :=
    RunStep.acquire (initState 2) 0 (by decide) (by decide)
  have h2 : RunStep 2 2 cxResults runS1 runS2 :=
    RunStep.acquire runS1 1 (by decide) (by decide)
  have h3 : RunStep 2 2 cxResults runS2 runS3 :=
    RunStep.deliver runS2 0 (by decide) (by decide) (by decide)
  exact Relation.ReflTransGen.tail
    (Relation.ReflTransGen.tail (Relation.ReflTransGen.single h1) h2) h3

lemma reach_runSfin : RunReachable 2 2 cxResults runSfin :=
  Relation.ReflTransGen.tail reach_runS3
    (RunStep.release runS3 0 (by decide))

lemma stuck_runSfin : RunStuck 2 2 cxResults runSfin := by
  intro t h
  cases h with
  | acquire w h1 h2 =>
    fin_cases w
    · exact absurd h1 (by decide)
    · exact absurd h1 (by decide)
  | deliver w h1 h2 h3 => exact absurd h2 (by decide)
  | release w h1 =>
    fin_cases w
    · exact absurd h1 (by decide)
    · exact absurd h1 (by decide)
  | finish h1 h2 => exact absurd h1 (by decide)

/- Concrete one-worker batch that succeeds, used to exercise the
no-error-case guarantees. -/

/-- Result oracle of an all-success batch. -/
def okResults : Fin 1 → Option Err := fun _ => none

/-- The single worker has taken the permit. -/
def okS1 : RunState 1 := acquireSt (initState 1) 0

/-- Its (successful) result has been received. -/
def okS2 : RunState 1 := deliverSt okResults okS1 0

/-- The collector loop has finished and run has returned nil. -/
def okS3 : RunState 1 := finishSt okS2

/-- The worker has run its deferred release: quiescent final state. -/
def okS4 : RunState 1 := releaseSt okS3 0

lemma reach_okS4 : RunReachable 1 1 okResults okS4 := by
  have h1 : RunStep 1 1 okResults (initState 1) okS1 :=
    RunStep.acquire (initState 1) 0 (by decide) (by decide)
  have h2 : RunStep 1 1 okResults okS1 okS2 :=
    RunStep.deliver okS1 0 (by decide) (by decide) (by decide)
  have h3 : RunStep 1 1 okResults okS2 okS3 :=
    RunStep.finish okS2 (by decide) (by decide)
  have h4 : RunStep 1 1 okResults okS3 okS4 :=
    RunStep.release okS3 0 (by decide)
  exact Relation.ReflTransGen.tail (Relation.ReflTransGen.tail
    (Relation.ReflTransGen.tail (Relation.ReflTransGen.single h1) h2) h3) h4

lemma stuck_okS4 : RunStuck 1 1 okResults okS4 := by
  intro t h
  cases h with
  | acquire w h1 h2 =>
    fin_cases w
    · exact absurd h1 (by decide)
  | deliver w h1 h2 h3 => exact absurd h2 (by decide)
  | release w h1 =>
    fin_cases w
    · exact absurd h1 (by decide)
  | finish h1 h2 => exact absurd h1 (by decide)

/- ===================== Corpus for the C7 scenario ===================== -/

/-- Three-document corpus whose documents contain two, one and zero lines
matching the pattern love case-insensitively. -/
def loveCorpus : List String :=
  ["I Love thee\nand LOVE again\nnothing here",
   "my love is deep\nfarewell",
   "hello\nworld"]

/-- Environment of a runQuery call in which everything succeeds and the
body decodes to a match_count of 42. -/
def okHttpEnv : HttpEnv :=
  { getErr := none, readErr := none, body := "42",
    decode := fun _ => Except.ok 42 }

/- ===================== Claim theorems ===================== -/

/-- C1 counterexample: listing [a, b] where the fetch of b fails and that
of a succeeds. readFiles returns a non-nil error, but the corpus it
returns has 2 entries — the successful content plus an empty-string entry
contributed by the failed fetch — not the 1 = 2 - 1 successful documents
only, refuting that failed identifiers contribute no document. -/
theorem C1_counterexample :
    (readFiles (ListingResult.success ["a", "b"]) cxFetch ["a", "b"]).2 ≠ none ∧
    (readFiles (ListingResult.success ["a", "b"]) cxFetch ["a", "b"]).1
      = ["content-of-a", ""] ∧
    ¬ (readFiles (ListingResult.success ["a", "b"]) cxFetch ["a", "b"]).1.length
       = 1 := by
  refine ⟨?_, ?_, ?_⟩ <;> decide

/-- C1 (amended): when at least one fetch fails, readFiles returns a
non-nil error (the last failure in arrival order) together with a corpus
holding one entry per listed identifier in completion order: each
successful fetch contributes its full content (none is discarded) and
each failed fetch contributes the string its goroutine sent (empty or
partial), so the corpus has exactly as many entries as identifiers. -/
theorem C1_amended_failed_fetch (names : List String)
    (fetch : String → FetchResp) (arrival : List String)
    (hp : arrival.Perm (pathsOf names))
    (hfail : ∃ p, p ∈ arrival ∧ (fetch p).err ≠ none) :
    (readFiles (ListingResult.success names) fetch arrival).2 ≠ none ∧
    (readFiles (ListingResult.success names) fetch arrival).1
      = arrival.map (fun p => (fetch p).s) := by
  have hred : readFiles (ListingResult.success names) fetch arrival
      = collectResps (arrival.map fetch) := rfl
  constructor
  · rw [hred]
    intro hnone
    rcases hfail with ⟨p, hmem, herr⟩
    have hall := (collectResps_snd_none (arrival.map fetch)).mp hnone
    exact herr (hall (fetch p) (List.mem_map_of_mem fetch hmem))
  · rw [hred, collectResps_fst]
    simp [List.map_map, Function.comp]

/-- C1 witness: the amended statement applied to a one-object listing
whose single fetch fails. -/
theorem C1_witness :
    (readFiles (ListingResult.success ["b"]) cxFetch ["b"]).2 ≠ none ∧
    (readFiles (ListingResult.success ["b"]) cxFetch ["b"]).1
      = ["b"].map (fun p => (cxFetch p).s) :=
  C1_amended_failed_fetch ["b"] cxFetch ["b"] (List.Perm.refl _)
    ⟨"b", by decide, by decide⟩

/-- C2 counterexample: under a compiler that rejects the pattern, a
request over a successfully retrieved corpus makes GetMatchCount panic
inside regexp.MustCompile — the outcome is crashed, not an error value
reported to the caller. -/
theorem C2_counterexample :
    getMatchCount badCompile (["some text"], none) "(" = GMCResult.crashed ∧
    isCallerError (getMatchCount badCompile (["some text"], none) "(")
      = false := by
  exact ⟨rfl, rfl⟩

/-- C2 (amended): for every pattern the regexp compiler rejects, when
corpus retrieval succeeded GetMatchCount panics in regexp.MustCompile
before any line counting begins, so no count — partial or otherwise — is
produced; but the failure is a panic, not an error reported to the
caller. (Corpus retrieval runs before pattern compilation, so a
retrieval error takes precedence.) -/
theorem C2_amended_invalid_pattern_panics (compile : String → Option Matcher)
    (texts : List String) (q : String) (h : compile (strToLower q) = none) :
    getMatchCount compile (texts, none) q = GMCResult.crashed := by
  simp [getMatchCount, h]

/-- C2 witness: the amended statement at a concrete rejected pattern. -/
theorem C2_witness :
    getMatchCount badCompile (["x"], none) "+" = GMCResult.crashed :=
  C2_amended_invalid_pattern_panics badCompile ["x"] "+" rfl

/-- C3 counterexample: a reachable, quiescent state of run with two
workers and capacity two in which run has returned an error while a
sibling worker — forever blocked sending on the unbuffered respErrCh —
still holds a permit: a permit acquired during the batch is never
released after run has returned. -/
theorem C3_counterexample :
    RunReachable 2 2 cxResults runSfin ∧ RunStuck 2 2 cxResults runSfin ∧
    runSfin.returned = some (some "boom") ∧ permits runSfin = 1 :=
  ⟨reach_runSfin, stuck_runSfin, by decide, by decide⟩

/-- C3 (amended): permits never leak in a batch in which no task fails:
in every reachable quiescent state in which run has returned nil, every
permit has been released. When a task returns an error, however, run
returns early and sibling workers that have not yet delivered their
results stay blocked holding their permits forever (each batch uses a
fresh semaphore channel, so later batches start unaffected). -/
theorem C3_amended_no_leak_on_nil_return (n limit : Nat)
    (results : Fin n → Option Err) (s : RunState n)
    (hre : RunReachable n limit results s) (hst : RunStuck n limit results s)
    (hr : s.returned = some none) : permits s = 0 :=
  permits_eq_zero_of_all_done (stuck_nil_all_done hre hst hr)

/-- C3 witness: the amended statement at the final state of the
one-worker all-success batch. -/
theorem C3_witness : permits okS4 = 0 :=
  C3_amended_no_leak_on_nil_return 1 1 okResults okS4 reach_okS4 stuck_okS4
    (by decide)

/-- C4 counterexample: a reachable state of run with two workers in which
run has already returned (with the first received error) although only
one of the two launched workers has reported back — the sibling is still
in flight and unobserved. -/
theorem C4_counterexample :
    RunReachable 2 2 cxResults runS3 ∧
    runS3.returned = some (some "boom") ∧
    runS3.received.length = 1 ∧ runS3.ws 1 = WStatus.sending :=
  ⟨reach_runS3, by decide, by decide, by decide⟩

/-- C4 (amended): run returns nil only after all workerCount tasks have
reported back (all results received and all successful); when tasks fail,
run returns the first task-level error it receives — all results received
before it were successes — but it does so immediately, without waiting
for the remaining in-flight tasks. -/
theorem C4_amended_first_error_return (n limit : Nat)
    (results : Fin n → Option Err) (s : RunState n)
    (h : RunReachable n limit results s) :
    (s.returned = some none →
      s.received.length = n ∧ ∀ w ∈ s.received, results w = none) ∧
    (∀ e, s.returned = some (some e) →
      ∃ l w, s.received = l ++ [w] ∧ (∀ v ∈ l, results v = none) ∧
        results w = some e) :=
  ⟨(runInv_reachable h).ret.2.1, (runInv_reachable h).ret.2.2⟩

/-- C4 witness: the amended statement at the final state of the
one-worker all-success batch. -/
theorem C4_witness : okS4.received.length = 1 :=
  ((C4_amended_first_error_return 1 1 okResults okS4 reach_okS4).1
    (by decide)).1

/-- C5: for every batch run(workerCount, concurrencyLimit) with
workerCount ≥ concurrencyLimit ≥ 1, in every reachable state of the batch
the number of workers holding a permit — those concurrently past the
semaphore and issuing or finishing their query — never exceeds
concurrencyLimit. -/
theorem C5_permit_count_bounded (n limit : Nat) (results : Fin n → Option Err)
    (s : RunState n) (hl : 1 ≤ limit) (hn : limit ≤ n)
    (h : RunReachable n limit results s) : permits s ≤ limit :=
  (runInv_reachable h).permits_le

/-- C5 witness: the bound applied to a two-worker capacity-one batch in
the state where one worker has taken the permit. -/
theorem C5_witness : permits (acquireSt (initState 2) 0) ≤ 1 :=
  C5_permit_count_bounded 2 1 (fun _ => none) (acquireSt (initState 2) 0)
    (by decide) (by decide)
    (Relation.ReflTransGen.single
      (RunStep.acquire (initState 2) 0 (by decide) (by decide)))

/-- C6: the line counting of GetMatchCount is invariant under any
reordering of the documents of the corpus; with a fixed matcher and fixed
document contents the count is therefore reproducible regardless of the
iteration order. -/
theorem C6_count_order_invariant (m : Matcher) (ts1 ts2 : List String)
    (hp : ts1.Perm ts2) : countLoop m ts1 = countLoop m ts2 := by
  rw [countLoop_eq_countSpec, countLoop_eq_countSpec]
  exact List.Perm.sum_eq (hp.map (countDoc m))

/-- C6 witness: order invariance at a concrete two-document corpus. -/
theorem C6_witness :
    countLoop (fun line => strContains line "a") ["a\nb", "c"]
      = countLoop (fun line => strContains line "a") ["c", "a\nb"] :=
  C6_count_order_invariant (fun line => strContains line "a")
    ["a\nb", "c"] ["c", "a\nb"] (List.Perm.swap "c" "a\nb" [])

/-- C7: for every pattern the compiler accepts, GetMatchCount over a
successfully retrieved corpus returns the sum over all documents of the
number of newline-split lines whose lowercased text is accepted by the
matcher compiled from the lowercased pattern (unanchored, case
insensitive); in particular the pattern love against a three-document
corpus whose documents contain two, one and zero matching lines returns
3. -/
theorem C7_count_semantics :
    (∀ (compile : String → Option Matcher) (m : Matcher)
        (texts : List String) (q : String), compile (strToLower q) = some m →
        getMatchCount compile (texts, none) q
          = GMCResult.ok (countSpec m texts)) ∧
    getMatchCount subCompile (loveCorpus, none) "love" = GMCResult.ok 3 := by
  constructor
  · intro compile m texts q h
    simp [getMatchCount, h, countLoop_eq_countSpec]
  · decide

/-- C7 witness: the general clause applied at a concrete compiler,
matcher, corpus and query. -/
theorem C7_witness :
    getMatchCount (fun _ => some (fun _ => true)) (["x"], none) "a"
      = GMCResult.ok (countSpec (fun _ => true) ["x"]) :=
  C7_count_semantics.1 (fun _ => some (fun _ => true)) (fun _ => true)
    ["x"] "a" rfl

/-- C8 counterexample: with numRounds = 1 and ample fuel the ticker loop
invokes run 3 times, not 1 — the break check i > numRounds runs after the
call and before the increment, so rounds 0, 1 and 2 all execute. -/
theorem C8_counterexample : mainLoop 1 0 10 = some 3 ∧ (3 : Nat) ≠ 1 :=
  ⟨rfl, by decide⟩

/-- C8 (amended): with numRounds = 0 the ticker loop never terminates (it
exhausts any fuel); with numRounds = R ≥ 1 it performs exactly R + 2
invocations of run and then stops. -/
theorem C8_amended_round_count :
    (∀ i fuel : Nat, mainLoop 0 i fuel = none) ∧
    (∀ R fuel : Nat, 1 ≤ R → R + 2 ≤ fuel → mainLoop R 0 fuel = some (R + 2)) := by
  constructor
  · exact mainLoop_zero_forever
  · intro R fuel hR hf
    have h := mainLoop_pos R hR fuel 0 (by omega) (by omega)
    simpa using h

/-- C8 witness: the amended statement at numRounds 0 and numRounds 3. -/
theorem C8_witness : mainLoop 0 0 7 = none ∧ mainLoop 3 0 9 = some 5 :=
  ⟨C8_amended_round_count.1 0 7,
    C8_amended_round_count.2 3 9 (by decide) (by decide)⟩

/-- C9: when the listing succeeds but yields no (non-empty) object names
under the prefix, readFiles returns an empty corpus and a nil error. -/
theorem C9_empty_listing (names : List String) (fetch : String → FetchResp)
    (arrival : List String) (hp : arrival.Perm (pathsOf names))
    (he : pathsOf names = []) :
    readFiles (ListingResult.success names) fetch arrival = ([], none) := by
  have ha : arrival = [] := by
    have hlen := hp.length_eq
    rw [he] at hlen
    exact List.eq_nil_of_length_eq_zero hlen
  subst ha
  rfl

/-- C9 witness: the empty-listing case at a concrete empty listing. -/
theorem C9_witness :
    readFiles (ListingResult.success []) cxFetch [] = ([], none) :=
  C9_empty_listing [] cxFetch [] (List.Perm.refl _) rfl

/-- C10: runQuery returns the count -1 whenever it reports a non-nil
error (request send, body read or JSON decode failure), and on a nil
error the returned count is exactly the match_count field decoded from
the response body. -/
theorem C10_runQuery_contract (env : HttpEnv) :
    ((runQuery env).2 ≠ none → (runQuery env).1 = -1) ∧
    ((runQuery env).2 = none →
      env.decode env.body = Except.ok (runQuery env).1) := by
  unfold runQuery
  cases hg : env.getErr with
  | some e => simp
  | none =>
    cases hr : env.readErr with
    | some e => simp
    | none =>
      cases hd : env.decode env.body with
      | error e => simp
      | ok m => simp [hd]

/-- C10 witness: the nil-error clause at a fully successful
environment. -/
theorem C10_witness :
    okHttpEnv.decode okHttpEnv.body = Except.ok (runQuery okHttpEnv).1 :=
  (C10_runQuery_contract okHttpEnv).2 rfl
